import Mathlib

/-!  Verification of the PDF download orchestration core of this
    repository (src/pdf_downloader.py, together with the control
    endpoints of app.py).

    The Python code is shallowly embedded.  The browser, the HTTP
    client and the cross-thread control flags are modelled by an oracle
    `Env` of scripted responses, consumed through monotone read
    counters kept in `St`.  Every observable action of the worker is
    recorded in a trace of `Ev` events, so temporal statements such as
    "no fetch is issued after the stop flag was observed" become
    statements about traces.  The two unbounded loops of the source
    (the pagination loop of `_search_pdf_urls` and the CAPTCHA poll
    loop of `_handle_captcha_detection`) are driven by an explicit fuel
    parameter; a `none` result means the run did not complete within
    the given fuel.  -/

/-- Result of one `driver.get`, as the worker observes it.
    `getOk = false` models `driver.get` raising (caught by the
    pagination loop's `except`), `loadOk = false` models the
    `WebDriverWait` timeout raising, `challenged` is the value of
    `_is_robot_detected` on this page, and `hrefs` lists the anchor
    `href` attributes of the rendered page (`none` = attribute
    absent, mirroring `link.get_attribute('href')` returning None). -/
structure Page where
  getOk : Bool
  challenged : Bool
  loadOk : Bool
  hrefs : List (Option String)
deriving Repr, DecidableEq

/-- Oracle for everything outside the worker: scripted values of the
    cross-thread flags and scripted responses of the browser and of
    the HTTP client, each consumed through its own read counter. -/
structure Env where
  /-- value of `self.should_stop` at its n-th read -/
  stopAt : Nat → Bool
  /-- result of the n-th `_is_browser_responsive()` check -/
  respAt : Nat → Bool
  /-- page rendered by the n-th `driver.get` -/
  pageAt : Nat → Page
  /-- a `resume_download()` call arrived before CAPTCHA poll n -/
  resumeSig : Nat → Bool
  /-- `_is_robot_detected` still true at CAPTCHA poll n -/
  robotAt : Nat → Bool
  /-- n-th `requests.get`: `none` = raised, `some s` = HTTP status s -/
  httpAt : Nat → Option Nat
  /-- body bytes of the n-th `requests.get` -/
  bodyAt : Nat → String

/-- Worker-side state: one read counter per oracle stream, plus the
    `self.should_resume` flag (the only flag the worker itself also
    writes, in `_handle_captcha_detection`). -/
structure St where
  stops : Nat
  fetches : Nat
  resps : Nat
  polls : Nat
  https : Nat
  resume : Bool
deriving Repr, DecidableEq

def initSt : St := ⟨0, 0, 0, 0, 0, false⟩

/-- Observable events of a run.  `pageFetch off` is a `driver.get` of
    the search page with `&start=off`; `candidateFetch u` is a
    `requests.get` of candidate URL u in `_save_pdf`; `browserClosure`
    is `_handle_browser_closure` surfacing the top-level error;
    `challenge` marks `_is_robot_detected` returning true on a fetched
    page; `stopCheck`/`respCheck` record the polled flag values. -/
inductive Ev where
  | stopCheck (b : Bool)
  | pageFetch (offset : Nat)
  | respCheck (b : Bool)
  | challenge
  | candidateFetch (url : String)
  | browserClosure
deriving Repr, DecidableEq

/-- The download directory, as a map from file path to file content. -/
abbrev FS := List (String × String)

/-- Per-keyword result dict of `download_pdfs_for_keyword`: either the
    success shape or the error shape. -/
inductive KwResult where
  | ok (keyword fieldName : String)
      (totalUrlsFound downloadedCount failedCount : Nat) (savePath : String)
  | err (keyword fieldName : String) (msg : String)
deriving Repr, DecidableEq

/-- ASCII hex digit value, as used by `urllib.parse.unquote`. -/
def hexVal (c : Char) : Option Nat :=
  if '0' ≤ c ∧ c ≤ '9' then some (c.toNat - '0'.toNat)
  else if 'a' ≤ c ∧ c ≤ 'f' then some (c.toNat - 'a'.toNat + 10)
  else if 'A' ≤ c ∧ c ≤ 'F' then some (c.toNat - 'A'.toNat + 10)
  else none

/-- `urllib.parse.unquote` restricted to single-byte (ASCII) escapes:
    every `%XY` hex pair is decoded to the corresponding character,
    anything else is kept verbatim. -/
def unquoteChars : List Char → List Char
  | [] => []
  | '%' :: a :: b :: rest =>
    match hexVal a, hexVal b with
    | some x, some y => Char.ofNat (16 * x + y) :: unquoteChars rest
    | _, _ => '%' :: unquoteChars (a :: b :: rest)
  | c :: rest => c :: unquoteChars rest

def unquote (s : String) : String := ⟨unquoteChars s.data⟩

/-- Python's `str.endswith`.  (The core `String.endsWith` is defined by
    well-founded recursion over byte positions, which the kernel does
    not reduce; this character-list version is definitionally
    executable.) -/
def strEndsWith (s suffix : String) : Bool :=
  List.isSuffixOf suffix.data s.data

/-- Python's `str.replace(' ', '_')` for path segments. -/
def replaceSpaceUnderscore (s : String) : String :=
  ⟨s.data.map fun c => if c = ' ' then '_' else c⟩

/-- Python's `str.split('/')` (which never yields an empty list). -/
def splitOnSlash : List Char → List (List Char)
  | [] => [[]]
  | '/' :: rest => [] :: splitOnSlash rest
  | c :: rest =>
    match splitOnSlash rest with
    | [] => [[c]]
    | g :: gs => (c :: g) :: gs

/-- `url.split('/')[-1]`. -/
def lastSegment (url : String) : String :=
  ⟨(splitOnSlash url.data).getLastD []⟩

/-- Destination file path derived in `_save_pdf`:
    `url.split('/')[-1]`, percent-decoded, joined under `savePath`. -/
def derivedPath (savePath url : String) : String :=
  savePath ++ "/" ++ unquote (lastSegment url)

/-- The href-collection step of `_search_pdf_urls`: for every anchor,
    `if href and href.endswith('.pdf'): pdf_urls.add(href)`.  The set
    is modelled as a duplicate-free list in insertion order. -/
def addPdfHrefs : List String → List (Option String) → List String
  | urls, [] => urls
  | urls, none :: rest => addPdfHrefs urls rest
  | urls, some h :: rest =>
    if strEndsWith h ".pdf" then
      if h ∈ urls then addPdfHrefs urls rest
      else addPdfHrefs (urls ++ [h]) rest
    else addPdfHrefs urls rest

/-- Number of hrefs on a page that pass the `.pdf` filter. -/
def countPdf (hs : List (Option String)) : Nat :=
  hs.countP fun o => match o with
    | some h => strEndsWith h ".pdf"
    | none => false

/-- Result record of `savePdf`. -/
structure SaveRes where
  ok : Bool
  st : St
  fs : FS
  tr : List Ev
deriving Repr, DecidableEq

/-- `_save_pdf(url, save_path)`: one `requests.get`; on status 200 the
    destination filename is derived from the URL's last path segment
    and the file is written only if no file of that name exists;
    every other outcome returns False. -/
def savePdf (env : Env) (url savePath : String) (st : St) (fs : FS) : SaveRes :=
  let resp := env.httpAt st.https
  let body := env.bodyAt st.https
  let st1 : St := { st with https := st.https + 1 }
  let ev : List Ev := [Ev.candidateFetch url]
  match resp with
  | none => ⟨false, st1, fs, ev⟩
  | some status =>
    if status = 200 then
      let finalPath := derivedPath savePath url
      if (fs.lookup finalPath).isSome then ⟨false, st1, fs, ev⟩
      else ⟨true, st1, (finalPath, body) :: fs, ev⟩
    else ⟨false, st1, fs, ev⟩

/-- `_handle_captcha_detection` (status-callback path): poll every 2
    seconds, forever, until either `self.should_resume` is observed
    (it is then reset to False) or `_is_robot_detected` reports the
    challenge gone.  Returns the cause (`true` = resumed by user) and
    the updated state, or `none` when the given fuel is exhausted
    while the loop is still blocked.  The loop performs no network
    fetch and — notably — never reads `self.should_stop`. -/
def handleCaptchaDetection (env : Env) : Nat → St → Option (Bool × St)
  | 0, _ => none
  | fuel + 1, st =>
    let v := st.resume || env.resumeSig st.polls
    let st1 : St := { st with polls := st.polls + 1 }
    if v then some (true, { st1 with resume := false })
    else if env.robotAt st.polls then
      handleCaptchaDetection env fuel st1
    else some (false, st1)

/-- Result record of the pagination loop. -/
structure SearchRes where
  urls : List String
  st : St
  tr : List Ev
deriving Repr, DecidableEq

/-- The `while` loop of `_search_pdf_urls`.  One iteration:
    check caps; poll `should_stop` (return the partial set if set);
    `driver.get` of the page at offset `pageNum * 10` (an exception
    breaks the loop); `_is_browser_responsive` (if dead, surface the
    closure and return); `_is_robot_detected` (if challenged, block in
    `_handle_captcha_detection` and `continue` — same `pageNum`, no
    hrefs collected); `WebDriverWait` (a timeout breaks the loop);
    collect `.pdf` hrefs; `page_num += 1`. -/
def searchLoop (env : Env) (maxPdfs maxPages : Nat) :
    Nat → St → List String → Nat → Option SearchRes
  | 0, _, _, _ => none
  | fuel + 1, st, urls, pageNum =>
    if urls.length < maxPdfs ∧ pageNum < maxPages then
      let b := env.stopAt st.stops
      let st1 : St := { st with stops := st.stops + 1 }
      if b then some ⟨urls, st1, [Ev.stopCheck true]⟩
      else
        let pg := env.pageAt st1.fetches
        let st2 : St := { st1 with fetches := st1.fetches + 1 }
        let ev2 : List Ev := [Ev.stopCheck false, Ev.pageFetch (pageNum * 10)]
        if pg.getOk then
          let r := env.respAt st2.resps
          let st3 : St := { st2 with resps := st2.resps + 1 }
          let ev3 : List Ev := ev2 ++ [Ev.respCheck r]
          if r then
            if pg.challenged then
              match handleCaptchaDetection env fuel st3 with
              | none => none
              | some (_, st4) =>
                (searchLoop env maxPdfs maxPages fuel st4 urls pageNum).map
                  fun res => ⟨res.urls, res.st, (ev3 ++ [Ev.challenge]) ++ res.tr⟩
            else if pg.loadOk then
              (searchLoop env maxPdfs maxPages fuel st3
                  (addPdfHrefs urls pg.hrefs) (pageNum + 1)).map
                fun res => ⟨res.urls, res.st, ev3 ++ res.tr⟩
            else some ⟨urls, st3, ev3⟩
          else some ⟨urls, st3, ev3 ++ [Ev.browserClosure]⟩
        else some ⟨urls, st2, ev2⟩
    else some ⟨urls, st, []⟩

/-- `_search_pdf_urls(keyword, max_pdfs)`: run the pagination loop
    from an empty candidate set at page 0. -/
def searchPdfUrls (env : Env) (maxPdfs maxPages fuel : Nat) (st : St) :
    Option SearchRes :=
  searchLoop env maxPdfs maxPages fuel st [] 0

/-- Result record of the candidate-download loop. -/
structure DlRes where
  dcount : Nat
  fcount : Nat
  st : St
  fs : FS
  tr : List Ev
deriving Repr, DecidableEq

/-- The download loop of `download_pdfs_for_keyword`: for every
    collected URL call `_save_pdf`, incrementing `downloaded_count` on
    True and `failed_count` on False.  It polls no flag. -/
def downloadLoop (env : Env) (folder : String) :
    List String → St → FS → DlRes
  | [], st, fs => ⟨0, 0, st, fs, []⟩
  | u :: rest, st, fs =>
    let s := savePdf env u folder st fs
    let r := downloadLoop env folder rest s.st s.fs
    if s.ok then ⟨r.dcount + 1, r.fcount, r.st, r.fs, s.tr ++ r.tr⟩
    else ⟨r.dcount, r.fcount + 1, r.st, r.fs, s.tr ++ r.tr⟩

/-- Result record of `download_pdfs_for_keyword`. -/
structure KwRes where
  result : KwResult
  st : St
  fs : FS
  tr : List Ev
deriving Repr, DecidableEq

/-- `download_pdfs_for_keyword`: check browser responsiveness (if
    dead, surface the closure and return the error dict), build the
    per-field/per-keyword folder (spaces replaced by underscores),
    collect URLs, then download each collected URL. -/
def downloadPdfsForKeyword (env : Env) (maxPdfs maxPages fuel : Nat)
    (downloadPath fieldName keyword : String) (st : St) (fs : FS) :
    Option KwRes :=
  let r := env.respAt st.resps
  let st1 : St := { st with resps := st.resps + 1 }
  if r then
    let fieldFolder := downloadPath ++ "/" ++ replaceSpaceUnderscore fieldName
    let keywordFolder := fieldFolder ++ "/" ++ replaceSpaceUnderscore keyword
    match searchPdfUrls env maxPdfs maxPages fuel st1 with
    | none => none
    | some sr =>
      let dl := downloadLoop env keywordFolder sr.urls sr.st fs
      some ⟨KwResult.ok keyword fieldName sr.urls.length dl.dcount dl.fcount
              keywordFolder,
            dl.st, dl.fs, (Ev.respCheck true :: sr.tr) ++ dl.tr⟩
  else
    some ⟨KwResult.err keyword fieldName "Browser was closed unexpectedly",
          st1, fs, [Ev.respCheck false, Ev.browserClosure]⟩

/-- Result record of `download_pdfs_for_field`. -/
structure FieldRes where
  results : List KwResult
  st : St
  fs : FS
  tr : List Ev
deriving Repr, DecidableEq

/-- `download_pdfs_for_field`: for every keyword, poll `should_stop`
    (break if set), process the keyword, append its result dict. -/
def downloadPdfsForField (env : Env) (maxPdfs maxPages fuel : Nat)
    (downloadPath fieldName : String) :
    List String → St → FS → Option FieldRes
  | [], st, fs => some ⟨[], st, fs, []⟩
  | kw :: rest, st, fs =>
    let b := env.stopAt st.stops
    let st1 : St := { st with stops := st.stops + 1 }
    if b then some ⟨[], st1, fs, [Ev.stopCheck true]⟩
    else
      match downloadPdfsForKeyword env maxPdfs maxPages fuel
          downloadPath fieldName kw st1 fs with
      | none => none
      | some kr =>
        match downloadPdfsForField env maxPdfs maxPages fuel
            downloadPath fieldName rest kr.st kr.fs with
        | none => none
        | some fr =>
          some ⟨kr.result :: fr.results, fr.st, fr.fs,
                (Ev.stopCheck false :: kr.tr) ++ fr.tr⟩

/-- Result record of `download_all_pdfs`. -/
structure AllRes where
  results : List (String × List KwResult)
  st : St
  fs : FS
  tr : List Ev
deriving Repr, DecidableEq

/-- `download_all_pdfs`: for every field, poll `should_stop` (break if
    set), check browser responsiveness (surface the closure and break
    if dead), then process the field's keywords. -/
def downloadAllPdfs (env : Env) (maxPdfs maxPages fuel : Nat)
    (downloadPath : String) :
    List (String × List String) → St → FS → Option AllRes
  | [], st, fs => some ⟨[], st, fs, []⟩
  | (fieldName, kws) :: rest, st, fs =>
    let b := env.stopAt st.stops
    let st1 : St := { st with stops := st.stops + 1 }
    if b then some ⟨[], st1, fs, [Ev.stopCheck true]⟩
    else
      let r := env.respAt st1.resps
      let st2 : St := { st1 with resps := st1.resps + 1 }
      if r then
        match downloadPdfsForField env maxPdfs maxPages fuel
            downloadPath fieldName kws st2 fs with
        | none => none
        | some fr =>
          match downloadAllPdfs env maxPdfs maxPages fuel
              downloadPath rest fr.st fr.fs with
          | none => none
          | some ar =>
            some ⟨(fieldName, fr.results) :: ar.results, ar.st, ar.fs,
                  (Ev.stopCheck false :: Ev.respCheck true :: fr.tr) ++ ar.tr⟩
      else
        some ⟨[], st2, fs,
              [Ev.stopCheck false, Ev.respCheck false, Ev.browserClosure]⟩

/-! Trace predicates. -/

def isPageFetch : Ev → Bool
  | Ev.pageFetch _ => true
  | _ => false

def isCandFetch : Ev → Bool
  | Ev.candidateFetch _ => true
  | _ => false

/-- A network fetch of either kind: a search-page fetch via the
    browser or a candidate download via `requests.get`. -/
def isNetFetch (e : Ev) : Bool := isPageFetch e || isCandFetch e

def isStopTrue : Ev → Bool
  | Ev.stopCheck b => b
  | _ => false

def isClosure : Ev → Bool
  | Ev.browserClosure => true
  | _ => false

def isChallenge : Ev → Bool
  | Ev.challenge => true
  | _ => false

/-- `anyAfter p q tr` holds when some event satisfying p is followed,
    strictly later in the trace, by an event satisfying q. -/
def anyAfter (p q : Ev → Bool) : List Ev → Bool
  | [] => false
  | e :: tr => (p e && tr.any q) || anyAfter p q tr

/-! The control endpoints of app.py (the JobController boundary). -/

/-- The global `download_status` dict of app.py. -/
structure AppStatus where
  isRunning : Bool
  results : List (String × List KwResult)
  error : Option String
  captchaDetected : Bool
  captchaMessage : Option String
  downloadPaused : Bool
deriving Repr, DecidableEq

/-- The `current_downloader` instance's externally settable flags. -/
structure Downloader where
  shouldStop : Bool
  shouldResume : Bool
deriving Repr, DecidableEq

/-- The process-wide shared state of app.py. -/
structure AppState where
  status : AppStatus
  downloader : Option Downloader
deriving Repr, DecidableEq

/-- An HTTP response of a control endpoint. -/
inductive ApiResp where
  | ok (msg : String)
  | err (msg : String) (code : Nat)
deriving Repr, DecidableEq

/-- `/api/start-download`: rejected with a 400 error while a run is
    active, or when nothing is selected; otherwise the background
    thread is spawned (flagged by the returned Bool — its later
    mutations of the status happen asynchronously, outside this
    handler). -/
def startDownload (cfgFields : List (String × List String))
    (sel custom : List String) (s : AppState) : ApiResp × AppState × Bool :=
  if s.status.isRunning then
    (ApiResp.err "Download already in progress" 400, s, false)
  else
    let selectedFields := cfgFields.filter fun p => p.1 ∈ sel
    if selectedFields.isEmpty ∧ custom.isEmpty then
      (ApiResp.err "No fields or keywords selected" 400, s, false)
    else (ApiResp.ok "Download started successfully", s, true)

/-- `/api/resume-download`: rejected with a 400 error when no CAPTCHA
    is pending or no downloader is active; otherwise sets the resume
    flag and clears the CAPTCHA fields. -/
def resumeDownload (s : AppState) : ApiResp × AppState :=
  if !s.status.captchaDetected then
    (ApiResp.err "No CAPTCHA detected to resume from" 400, s)
  else
    match s.downloader with
    | none => (ApiResp.err "No active downloader found" 400, s)
    | some d =>
      let d1 : Downloader := { d with shouldResume := true }
      let st1 : AppStatus := { s.status with
        captchaDetected := false, captchaMessage := none,
        downloadPaused := false }
      (ApiResp.ok "Download resumed successfully", ⟨st1, some d1⟩)

/-- `/api/stop-download`: rejected with a 400 error when neither a run
    nor a pending CAPTCHA is active; otherwise signals the downloader
    to stop, drops it, and marks the status stopped by the user. -/
def stopDownloadApi (s : AppState) : ApiResp × AppState :=
  if !s.status.isRunning ∧ !s.status.captchaDetected then
    (ApiResp.err "No download in progress to stop" 400, s)
  else
    let st1 : AppStatus := { s.status with
      isRunning := false, captchaDetected := false, captchaMessage := none,
      downloadPaused := false, error := some "Download stopped by user" }
    (ApiResp.ok "Download stopped successfully", ⟨st1, none⟩)

/-! Concrete scripted scenarios used to evaluate the model on small
    inputs.  `pageTwoPdfs` renders two distinct `.pdf` anchors, one
    non-pdf anchor and one anchor without an href; `pageChallenged`
    carries a CAPTCHA marker. -/

def pageTwoPdfs : Page :=
  ⟨true, false, true,
   [some "http://a/x.pdf", some "http://a/y.pdf", some "http://a/z.htm", none]⟩

def pageChallenged : Page := ⟨true, true, true, []⟩

/-- Benign environment: no stop, browser alive, no challenge, HTTP 200. -/
def envOk : Env :=
  ⟨fun _ => false, fun _ => true, fun _ => pageTwoPdfs,
   fun _ => false, fun _ => false, fun _ => some 200, fun _ => "body"⟩

/-- First page challenged (then auto-cleared), second page has two
    matching hrefs. -/
def envOverCap : Env :=
  ⟨fun _ => false, fun _ => true,
   fun n => if n = 0 then pageChallenged else pageTwoPdfs,
   fun _ => false, fun _ => false, fun _ => some 200, fun _ => "body"⟩

/-- `should_stop` becomes (and stays) true from its fourth read on; the
    first search page is fetched before the flag flips. -/
def envStopMidRun : Env :=
  ⟨fun i => decide (3 ≤ i), fun _ => true, fun _ => pageTwoPdfs,
   fun _ => false, fun _ => false, fun _ => some 200, fun _ => "body"⟩

/-- The browser dies after its third responsiveness check: the first
    search page is collected, the second fetch finds the browser gone. -/
def envBrowserDies : Env :=
  ⟨fun _ => false, fun i => decide (i < 3), fun _ => pageTwoPdfs,
   fun _ => false, fun _ => false, fun _ => some 200, fun _ => "body"⟩

/-- Candidate downloads answer HTTP 404. -/
def envHttp404 : Env :=
  ⟨fun _ => false, fun _ => true, fun _ => pageTwoPdfs,
   fun _ => false, fun _ => false, fun _ => some 404, fun _ => "new"⟩

/-- A challenge that never clears while `should_stop` is set and no
    resume signal ever arrives. -/
def envStuckChallenge : Env :=
  ⟨fun _ => true, fun _ => true, fun _ => pageChallenged,
   fun _ => false, fun _ => true, fun _ => some 200, fun _ => "b"⟩

/-- A challenge wait that is released by a resume signal at its first
    poll. -/
def envResumed : Env :=
  ⟨fun _ => false, fun _ => true,
   fun n => if n = 0 then pageChallenged else pageTwoPdfs,
   fun _ => true, fun _ => true, fun _ => some 200, fun _ => "body"⟩

/-- A download directory already containing the file a candidate URL
    derives to. -/
def fsPre : FS := [("d/a.pdf", "old")]

/-- `should_stop` never reads true again once set: every read at or
    after a true read is true.  This is how the flag behaves in the
    source (nothing clears it during a run). -/
def MonoStop (env : Env) : Prop :=
  ∀ i j, i ≤ j → env.stopAt i = true → env.stopAt j = true

/-- A dead browser stays dead: a responsive read forces every earlier
    read to have been responsive too. -/
def MonoResp (env : Env) : Prop :=
  ∀ i j, i ≤ j → env.respAt j = true → env.respAt i = true

/-- An idle shared state of app.py: nothing running, no CAPTCHA. -/
def sIdle : AppState :=
  ⟨⟨false, [], none, false, none, false⟩, none⟩

/-- A shared state of app.py with a run in progress. -/
def sRunning : AppState :=
  ⟨⟨true, [], none, false, none, false⟩, some ⟨false, false⟩⟩

/-! Generic trace lemmas. -/

theorem anyAfter_append (p q : Ev → Bool) (t1 t2 : List Ev) :
    anyAfter p q (t1 ++ t2) =
      (anyAfter p q t1 || (t1.any p && t2.any q) || anyAfter p q t2) := by
  induction t1 with
  | nil => simp [anyAfter]
  | cons e t1 ih =>
    simp only [List.cons_append, anyAfter, List.any_append, List.any_cons, ih]
    cases hpe : p e <;> cases h1 : t1.any q <;> cases h2 : t2.any q <;>
      cases h3 : t1.any p <;> cases h4 : anyAfter p q t1 <;>
      cases h5 : anyAfter p q t2 <;> simp [*]

theorem anyAfter_of_no_p (p q : Ev → Bool) (tr : List Ev)
    (h : tr.any p = false) : anyAfter p q tr = false := by
  induction tr with
  | nil => rfl
  | cons e tr ih =>
    simp only [List.any_cons, Bool.or_eq_false_iff] at h
    simp [anyAfter, h.1, ih h.2]

theorem anyAfter_of_no_q (p q : Ev → Bool) (tr : List Ev)
    (h : tr.any q = false) : anyAfter p q tr = false := by
  induction tr with
  | nil => rfl
  | cons e tr ih =>
    simp only [List.any_cons, Bool.or_eq_false_iff] at h
    simp [anyAfter, h.2, ih h.2]

/-! Facts about the href-collection step. -/

theorem addPdfHrefs_length_le (hs : List (Option String)) :
    ∀ urls : List String,
      (addPdfHrefs urls hs).length ≤ urls.length + countPdf hs := by
  induction hs with
  | nil => intro urls; simp [addPdfHrefs, countPdf]
  | cons o hs ih =>
    intro urls
    cases o with
    | none =>
      simpa [addPdfHrefs, countPdf, List.countP_cons] using ih urls
    | some h =>
      simp only [addPdfHrefs, countPdf, List.countP_cons]
      by_cases hp : strEndsWith h ".pdf" = true
      · simp only [hp, if_true]
        by_cases hmem : h ∈ urls
        · have := ih urls
          simp only [countPdf] at this
          simp only [if_pos hmem]
          omega
        · have := ih (urls ++ [h])
          simp only [countPdf] at this
          simp only [if_neg hmem, List.length_append, List.length_cons,
            List.length_nil] at this ⊢
          omega
      · rw [Bool.not_eq_true] at hp
        have := ih urls
        simp only [countPdf] at this
        simp only [hp, if_false, Bool.false_eq_true]
        omega

theorem addPdfHrefs_sound (hs : List (Option String)) :
    ∀ urls : List String, urls.Nodup →
      (∀ u ∈ urls, strEndsWith u ".pdf" = true) →
      (addPdfHrefs urls hs).Nodup ∧
        ∀ u ∈ addPdfHrefs urls hs, strEndsWith u ".pdf" = true := by
  induction hs with
  | nil => intro urls hnd hp; exact ⟨hnd, hp⟩
  | cons o hs ih =>
    intro urls hnd hp
    cases o with
    | none => simpa [addPdfHrefs] using ih urls hnd hp
    | some h =>
      by_cases hph : strEndsWith h ".pdf" = true
      · by_cases hmem : h ∈ urls
        · simpa [addPdfHrefs, hph, hmem] using ih urls hnd hp
        · have hnd2 : (urls ++ [h]).Nodup := by
            simp [List.nodup_append, hnd, hmem]
          have hp2 : ∀ u ∈ urls ++ [h], strEndsWith u ".pdf" = true := by
            intro u hu
            rcases List.mem_append.mp hu with hu | hu
            · exact hp u hu
            · simp only [List.mem_singleton] at hu; subst hu; exact hph
          simpa [addPdfHrefs, hph, hmem] using ih (urls ++ [h]) hnd2 hp2
      · rw [Bool.not_eq_true] at hph
        simpa [addPdfHrefs, hph] using ih urls hnd hp

/-! Facts about the CAPTCHA wait. -/

theorem handleCaptcha_preserves (env : Env) :
    ∀ (fuel : Nat) (st : St) (c : Bool) (st1 : St),
      handleCaptchaDetection env fuel st = some (c, st1) →
      st1.stops = st.stops ∧ st1.fetches = st.fetches ∧
        st1.resps = st.resps ∧ st1.https = st.https := by
  intro fuel
  induction fuel with
  | zero => intro st c st1 h; simp [handleCaptchaDetection] at h
  | succ fuel ih =>
    intro st c st1 h
    simp only [handleCaptchaDetection] at h
    by_cases hv : (st.resume || env.resumeSig st.polls) = true
    · rw [if_pos hv] at h
      simp only [Option.some.injEq, Prod.mk.injEq] at h
      obtain ⟨-, hst⟩ := h
      subst hst
      exact ⟨rfl, rfl, rfl, rfl⟩
    · rw [if_neg hv] at h
      by_cases hr : env.robotAt st.polls = true
      · rw [if_pos hr] at h
        have := ih ⟨st.stops, st.fetches, st.resps, st.polls + 1, st.https,
          st.resume⟩ c st1 h
        exact this
      · rw [if_neg hr] at h
        simp only [Option.some.injEq, Prod.mk.injEq] at h
        obtain ⟨-, hst⟩ := h
        subst hst
        exact ⟨rfl, rfl, rfl, rfl⟩

/-! Facts about `_save_pdf`. -/

theorem savePdf_spec (env : Env) (url folder : String) (st : St) (fs : FS) :
    (savePdf env url folder st fs).st.stops = st.stops ∧
    (savePdf env url folder st fs).st.resps = st.resps ∧
    (savePdf env url folder st fs).tr = [Ev.candidateFetch url] := by
  unfold savePdf
  cases henv : env.httpAt st.https with
  | none => simp
  | some status =>
    by_cases hs : status = 200
    · subst hs
      by_cases hex : (fs.lookup (derivedPath folder url)).isSome = true
      · simp [hex]
      · simp [hex]
    · simp [hs]

theorem savePdf_exists (env : Env) (url folder : String) (st : St) (fs : FS)
    (hex : (fs.lookup (derivedPath folder url)).isSome = true) :
    (savePdf env url folder st fs).ok = false ∧
      (savePdf env url folder st fs).fs = fs := by
  unfold savePdf
  cases henv : env.httpAt st.https with
  | none => simp
  | some status =>
    by_cases hs : status = 200
    · subst hs
      simp [hex]
    · simp [hs]

/-! Facts about the candidate-download loop. -/

theorem downloadLoop_spec (env : Env) (folder : String) :
    ∀ (urls : List String) (st : St) (fs : FS),
      (downloadLoop env folder urls st fs).dcount +
          (downloadLoop env folder urls st fs).fcount = urls.length ∧
      (downloadLoop env folder urls st fs).st.stops = st.stops ∧
      (downloadLoop env folder urls st fs).st.resps = st.resps ∧
      (downloadLoop env folder urls st fs).tr.all isCandFetch = true := by
  intro urls
  induction urls with
  | nil => intro st fs; refine ⟨rfl, rfl, rfl, rfl⟩
  | cons u rest ih =>
    intro st fs
    obtain ⟨h1, h2, h3⟩ := savePdf_spec env u folder st fs
    obtain ⟨i1, i2, i3, i4⟩ :=
      ih (savePdf env u folder st fs).st (savePdf env u folder st fs).fs
    simp only [downloadLoop]
    cases ho : (savePdf env u folder st fs).ok
    · simp only [Bool.false_eq_true, if_false, List.all_append, h3, i4,
        List.length_cons]
      refine ⟨by omega, by rw [i2, h1], by rw [i3, h2], by simp [isCandFetch]⟩
    · simp only [if_true, List.all_append, h3, i4, List.length_cons,
        eq_self_iff_true]
      refine ⟨by omega, by rw [i2, h1], by rw [i3, h2], by simp [isCandFetch]⟩

theorem all_cand_no_marks (tr : List Ev) (h : tr.all isCandFetch = true) :
    tr.any isStopTrue = false ∧ tr.any isPageFetch = false ∧
      tr.any isClosure = false := by
  induction tr with
  | nil => exact ⟨rfl, rfl, rfl⟩
  | cons e tr ih =>
    simp only [List.all_cons, Bool.and_eq_true] at h
    obtain ⟨he, htr⟩ := h
    obtain ⟨a1, a2, a3⟩ := ih htr
    cases e <;>
      simp_all [isCandFetch, isStopTrue, isPageFetch, isClosure]

/-! Stop-flag invariants of the pagination loop. -/

theorem searchLoop_stop_inv (env : Env) (mp mP : Nat) (hm : MonoStop env) :
    ∀ (fuel : Nat) (st : St) (urls : List String) (pageNum : Nat)
      (sr : SearchRes),
      searchLoop env mp mP fuel st urls pageNum = some sr →
      st.stops ≤ sr.st.stops ∧
      anyAfter isStopTrue isPageFetch sr.tr = false ∧
      (sr.tr.any isStopTrue = true → env.stopAt sr.st.stops = true) := by
  intro fuel
  induction fuel with
  | zero => intro st urls pageNum sr h; simp [searchLoop] at h
  | succ fuel ih =>
    intro st urls pageNum sr h
    simp only [searchLoop] at h
    by_cases hc : urls.length < mp ∧ pageNum < mP
    case neg =>
      rw [if_neg hc] at h
      injection h with h
      subst h
      exact ⟨le_refl _, rfl, by simp⟩
    case pos =>
      rw [if_pos hc] at h
      by_cases hb : env.stopAt st.stops = true
      case pos =>
        rw [if_pos hb] at h
        injection h with h
        subst h
        refine ⟨Nat.le_succ _, by simp [anyAfter], ?_⟩
        intro _
        exact hm st.stops (st.stops + 1) (Nat.le_succ _) hb
      case neg =>
        rw [if_neg hb] at h
        by_cases hg : (env.pageAt st.fetches).getOk = true
        case neg =>
          rw [if_neg hg] at h
          injection h with h
          subst h
          refine ⟨Nat.le_succ _, by simp [anyAfter, isStopTrue], ?_⟩
          intro hany
          simp [isStopTrue] at hany
        case pos =>
          rw [if_pos hg] at h
          by_cases hr : env.respAt st.resps = true
          case neg =>
            rw [if_neg hr] at h
            injection h with h
            subst h
            refine ⟨Nat.le_succ _, by simp [anyAfter, isStopTrue], ?_⟩
            intro hany
            simp [isStopTrue] at hany
          case pos =>
            rw [if_pos hr] at h
            by_cases hch : (env.pageAt st.fetches).challenged = true
            case pos =>
              rw [if_pos hch] at h
              cases hcap : handleCaptchaDetection env fuel
                  ⟨st.stops + 1, st.fetches + 1, st.resps + 1, st.polls,
                   st.https, st.resume⟩ with
              | none => rw [hcap] at h; cases h
              | some p =>
                obtain ⟨c1, st4⟩ := p
                rw [hcap] at h
                rw [Option.map_eq_some'] at h
                obtain ⟨res, hres, hmap⟩ := h
                subst hmap
                obtain ⟨l1, a1, s1⟩ := ih st4 urls pageNum res hres
                obtain ⟨e1, -, -, -⟩ := handleCaptcha_preserves env fuel _ _ _ hcap
                have e2 : st4.stops = st.stops + 1 := e1
                refine ⟨by show st.stops ≤ res.st.stops; omega, ?_, ?_⟩
                · simp [anyAfter, isStopTrue, a1]
                · intro hany
                  simp only [List.cons_append, List.append_assoc,
                    List.singleton_append, List.any_cons, isStopTrue,
                    Bool.false_or] at hany
                  exact s1 hany
            case neg =>
              rw [if_neg hch] at h
              by_cases hl : (env.pageAt st.fetches).loadOk = true
              case pos =>
                rw [if_pos hl] at h
                rw [Option.map_eq_some'] at h
                obtain ⟨res, hres, hmap⟩ := h
                subst hmap
                obtain ⟨l1, a1, s1⟩ := ih _ _ _ res hres
                have l2 : st.stops + 1 ≤ res.st.stops := l1
                refine ⟨by show st.stops ≤ res.st.stops; omega, ?_, ?_⟩
                · simp [anyAfter, isStopTrue, a1]
                · intro hany
                  simp only [List.cons_append, List.append_assoc,
                    List.singleton_append, List.any_cons, isStopTrue,
                    Bool.false_or] at hany
                  exact s1 hany
              case neg =>
                rw [if_neg hl] at h
                injection h with h
                subst h
                refine ⟨Nat.le_succ _, by simp [anyAfter, isStopTrue], ?_⟩
                intro hany
                simp [isStopTrue] at hany

/-! Browser-liveness invariants of the pagination loop. -/

theorem searchLoop_resp_inv (env : Env) (mp mP : Nat) (hm : MonoResp env) :
    ∀ (fuel : Nat) (st : St) (urls : List String) (pageNum : Nat)
      (sr : SearchRes),
      searchLoop env mp mP fuel st urls pageNum = some sr →
      st.resps ≤ sr.st.resps ∧
      anyAfter isClosure isPageFetch sr.tr = false ∧
      (sr.tr.any isClosure = true → env.respAt sr.st.resps = false) := by
  intro fuel
  induction fuel with
  | zero => intro st urls pageNum sr h; simp [searchLoop] at h
  | succ fuel ih =>
    intro st urls pageNum sr h
    simp only [searchLoop] at h
    by_cases hc : urls.length < mp ∧ pageNum < mP
    case neg =>
      rw [if_neg hc] at h
      injection h with h
      subst h
      exact ⟨le_refl _, rfl, by simp⟩
    case pos =>
      rw [if_pos hc] at h
      by_cases hb : env.stopAt st.stops = true
      case pos =>
        rw [if_pos hb] at h
        injection h with h
        subst h
        refine ⟨le_refl _, by simp [anyAfter], ?_⟩
        intro hany
        simp [isClosure] at hany
      case neg =>
        rw [if_neg hb] at h
        by_cases hg : (env.pageAt st.fetches).getOk = true
        case neg =>
          rw [if_neg hg] at h
          injection h with h
          subst h
          refine ⟨le_refl _, by simp [anyAfter, isClosure], ?_⟩
          intro hany
          simp [isClosure] at hany
        case pos =>
          rw [if_pos hg] at h
          by_cases hr : env.respAt st.resps = true
          case neg =>
            rw [if_neg hr] at h
            injection h with h
            subst h
            refine ⟨Nat.le_succ _, by simp [anyAfter, isClosure, isPageFetch], ?_⟩
            intro _
            show env.respAt (st.resps + 1) = false
            cases hx : env.respAt (st.resps + 1) with
            | false => rfl
            | true => exact absurd (hm st.resps (st.resps + 1) (Nat.le_succ _) hx) hr
          case pos =>
            rw [if_pos hr] at h
            by_cases hch : (env.pageAt st.fetches).challenged = true
            case pos =>
              rw [if_pos hch] at h
              cases hcap : handleCaptchaDetection env fuel
                  ⟨st.stops + 1, st.fetches + 1, st.resps + 1, st.polls,
                   st.https, st.resume⟩ with
              | none => rw [hcap] at h; cases h
              | some p =>
                obtain ⟨c1, st4⟩ := p
                rw [hcap] at h
                rw [Option.map_eq_some'] at h
                obtain ⟨res, hres, hmap⟩ := h
                subst hmap
                obtain ⟨l1, a1, s1⟩ := ih st4 urls pageNum res hres
                obtain ⟨-, -, e1, -⟩ := handleCaptcha_preserves env fuel _ _ _ hcap
                have e2 : st4.resps = st.resps + 1 := e1
                refine ⟨by show st.resps ≤ res.st.resps; omega, ?_, ?_⟩
                · simp [anyAfter, isClosure, a1]
                · intro hany
                  simp only [List.cons_append, List.append_assoc,
                    List.singleton_append, List.any_cons, isClosure,
                    Bool.false_or] at hany
                  exact s1 hany
            case neg =>
              rw [if_neg hch] at h
              by_cases hl : (env.pageAt st.fetches).loadOk = true
              case pos =>
                rw [if_pos hl] at h
                rw [Option.map_eq_some'] at h
                obtain ⟨res, hres, hmap⟩ := h
                subst hmap
                obtain ⟨l1, a1, s1⟩ := ih _ _ _ res hres
                have l2 : st.resps + 1 ≤ res.st.resps := l1
                refine ⟨by show st.resps ≤ res.st.resps; omega, ?_, ?_⟩
                · simp [anyAfter, isClosure, a1]
                · intro hany
                  simp only [List.cons_append, List.append_assoc,
                    List.singleton_append, List.any_cons, isClosure,
                    Bool.false_or] at hany
                  exact s1 hany
              case neg =>
                rw [if_neg hl] at h
                injection h with h
                subst h
                refine ⟨Nat.le_succ _, by simp [anyAfter, isClosure], ?_⟩
                intro hany
                simp [isClosure] at hany

/-! Candidate-count and fetch-count bounds of the pagination loop. -/

theorem searchLoop_len_le (env : Env) (mp mP H : Nat)
    (hH : ∀ n, countPdf (env.pageAt n).hrefs ≤ H) :
    ∀ (fuel : Nat) (st : St) (urls : List String) (pageNum : Nat)
      (sr : SearchRes),
      urls.length ≤ mp - 1 + H →
      searchLoop env mp mP fuel st urls pageNum = some sr →
      sr.urls.length ≤ mp - 1 + H := by
  intro fuel
  induction fuel with
  | zero => intro st urls pageNum sr hpre h; simp [searchLoop] at h
  | succ fuel ih =>
    intro st urls pageNum sr hpre h
    simp only [searchLoop] at h
    by_cases hc : urls.length < mp ∧ pageNum < mP
    case neg =>
      rw [if_neg hc] at h
      injection h with h
      subst h
      exact hpre
    case pos =>
      rw [if_pos hc] at h
      by_cases hb : env.stopAt st.stops = true
      case pos =>
        rw [if_pos hb] at h
        injection h with h
        subst h
        exact hpre
      case neg =>
        rw [if_neg hb] at h
        by_cases hg : (env.pageAt st.fetches).getOk = true
        case neg =>
          rw [if_neg hg] at h
          injection h with h
          subst h
          exact hpre
        case pos =>
          rw [if_pos hg] at h
          by_cases hr : env.respAt st.resps = true
          case neg =>
            rw [if_neg hr] at h
            injection h with h
            subst h
            exact hpre
          case pos =>
            rw [if_pos hr] at h
            by_cases hch : (env.pageAt st.fetches).challenged = true
            case pos =>
              rw [if_pos hch] at h
              cases hcap : handleCaptchaDetection env fuel
                  ⟨st.stops + 1, st.fetches + 1, st.resps + 1, st.polls,
                   st.https, st.resume⟩ with
              | none => rw [hcap] at h; cases h
              | some p =>
                obtain ⟨c1, st4⟩ := p
                rw [hcap] at h
                rw [Option.map_eq_some'] at h
                obtain ⟨res, hres, hmap⟩ := h
                subst hmap
                exact ih st4 urls pageNum res hpre hres
            case neg =>
              rw [if_neg hch] at h
              by_cases hl : (env.pageAt st.fetches).loadOk = true
              case pos =>
                rw [if_pos hl] at h
                rw [Option.map_eq_some'] at h
                obtain ⟨res, hres, hmap⟩ := h
                subst hmap
                have hadd :
                    (addPdfHrefs urls (env.pageAt st.fetches).hrefs).length ≤
                      mp - 1 + H := by
                  have h1 := addPdfHrefs_length_le (env.pageAt st.fetches).hrefs urls
                  have h2 := hH st.fetches
                  have h3 := hc.1
                  omega
                exact ih _ _ _ res hadd hres
              case neg =>
                rw [if_neg hl] at h
                injection h with h
                subst h
                exact hpre

theorem searchLoop_fetch_le (env : Env) (mp mP : Nat) :
    ∀ (fuel : Nat) (st : St) (urls : List String) (pageNum : Nat)
      (sr : SearchRes),
      pageNum ≤ mP →
      searchLoop env mp mP fuel st urls pageNum = some sr →
      sr.tr.countP isPageFetch + pageNum ≤ mP + sr.tr.countP isChallenge := by
  intro fuel
  induction fuel with
  | zero => intro st urls pageNum sr hpre h; simp [searchLoop] at h
  | succ fuel ih =>
    intro st urls pageNum sr hpre h
    simp only [searchLoop] at h
    by_cases hc : urls.length < mp ∧ pageNum < mP
    case neg =>
      rw [if_neg hc] at h
      injection h with h
      subst h
      simpa using hpre
    case pos =>
      have hpage := hc.2
      rw [if_pos hc] at h
      by_cases hb : env.stopAt st.stops = true
      case pos =>
        rw [if_pos hb] at h
        injection h with h
        subst h
        simp [List.countP_cons, isPageFetch, isChallenge]
        omega
      case neg =>
        rw [if_neg hb] at h
        by_cases hg : (env.pageAt st.fetches).getOk = true
        case neg =>
          rw [if_neg hg] at h
          injection h with h
          subst h
          simp [List.countP_cons, isPageFetch, isChallenge]
          omega
        case pos =>
          rw [if_pos hg] at h
          by_cases hr : env.respAt st.resps = true
          case neg =>
            rw [if_neg hr] at h
            injection h with h
            subst h
            simp [List.countP_cons, List.countP_append, isPageFetch,
              isChallenge]
            omega
          case pos =>
            rw [if_pos hr] at h
            by_cases hch : (env.pageAt st.fetches).challenged = true
            case pos =>
              rw [if_pos hch] at h
              cases hcap : handleCaptchaDetection env fuel
                  ⟨st.stops + 1, st.fetches + 1, st.resps + 1, st.polls,
                   st.https, st.resume⟩ with
              | none => rw [hcap] at h; cases h
              | some p =>
                obtain ⟨c1, st4⟩ := p
                rw [hcap] at h
                rw [Option.map_eq_some'] at h
                obtain ⟨res, hres, hmap⟩ := h
                subst hmap
                have hih := ih st4 urls pageNum res hpre hres
                simp [List.countP_cons, List.countP_append, isPageFetch,
                  isChallenge]
                omega
            case neg =>
              rw [if_neg hch] at h
              by_cases hl : (env.pageAt st.fetches).loadOk = true
              case pos =>
                rw [if_pos hl] at h
                rw [Option.map_eq_some'] at h
                obtain ⟨res, hres, hmap⟩ := h
                subst hmap
                have hih := ih _ _ (pageNum + 1) res (by omega) hres
                simp [List.countP_cons, List.countP_append, isPageFetch,
                  isChallenge]
                omega
              case neg =>
                rw [if_neg hl] at h
                injection h with h
                subst h
                simp [List.countP_cons, List.countP_append, isPageFetch,
                  isChallenge]
                omega

theorem searchLoop_sound (env : Env) (mp mP : Nat) :
    ∀ (fuel : Nat) (st : St) (urls : List String) (pageNum : Nat)
      (sr : SearchRes),
      urls.Nodup → (∀ u ∈ urls, strEndsWith u ".pdf" = true) →
      searchLoop env mp mP fuel st urls pageNum = some sr →
      sr.urls.Nodup ∧ ∀ u ∈ sr.urls, strEndsWith u ".pdf" = true := by
  intro fuel
  induction fuel with
  | zero => intro st urls pageNum sr hnd hp h; simp [searchLoop] at h
  | succ fuel ih =>
    intro st urls pageNum sr hnd hp h
    simp only [searchLoop] at h
    by_cases hc : urls.length < mp ∧ pageNum < mP
    case neg =>
      rw [if_neg hc] at h
      injection h with h
      subst h
      exact ⟨hnd, hp⟩
    case pos =>
      rw [if_pos hc] at h
      by_cases hb : env.stopAt st.stops = true
      case pos =>
        rw [if_pos hb] at h
        injection h with h
        subst h
        exact ⟨hnd, hp⟩
      case neg =>
        rw [if_neg hb] at h
        by_cases hg : (env.pageAt st.fetches).getOk = true
        case neg =>
          rw [if_neg hg] at h
          injection h with h
          subst h
          exact ⟨hnd, hp⟩
        case pos =>
          rw [if_pos hg] at h
          by_cases hr : env.respAt st.resps = true
          case neg =>
            rw [if_neg hr] at h
            injection h with h
            subst h
            exact ⟨hnd, hp⟩
          case pos =>
            rw [if_pos hr] at h
            by_cases hch : (env.pageAt st.fetches).challenged = true
            case pos =>
              rw [if_pos hch] at h
              cases hcap : handleCaptchaDetection env fuel
                  ⟨st.stops + 1, st.fetches + 1, st.resps + 1, st.polls,
                   st.https, st.resume⟩ with
              | none => rw [hcap] at h; cases h
              | some p =>
                obtain ⟨c1, st4⟩ := p
                rw [hcap] at h
                rw [Option.map_eq_some'] at h
                obtain ⟨res, hres, hmap⟩ := h
                subst hmap
                exact ih st4 urls pageNum res hnd hp hres
            case neg =>
              rw [if_neg hch] at h
              by_cases hl : (env.pageAt st.fetches).loadOk = true
              case pos =>
                rw [if_pos hl] at h
                rw [Option.map_eq_some'] at h
                obtain ⟨res, hres, hmap⟩ := h
                subst hmap
                obtain ⟨hnd2, hp2⟩ :=
                  addPdfHrefs_sound (env.pageAt st.fetches).hrefs urls hnd hp
                exact ih _ _ _ res hnd2 hp2 hres
              case neg =>
                rw [if_neg hl] at h
                injection h with h
                subst h
                exact ⟨hnd, hp⟩

/-! Keyword-level invariants. -/

theorem kw_stop_inv (env : Env) (mp mP fuel : Nat) (hm : MonoStop env)
    (dlPath fieldName kw : String) (st : St) (fs : FS) (kr : KwRes)
    (h : downloadPdfsForKeyword env mp mP fuel dlPath fieldName kw st fs =
      some kr) :
    st.stops ≤ kr.st.stops ∧
    anyAfter isStopTrue isPageFetch kr.tr = false ∧
    (kr.tr.any isStopTrue = true → env.stopAt kr.st.stops = true) := by
  simp only [downloadPdfsForKeyword, searchPdfUrls] at h
  by_cases hr : env.respAt st.resps = true
  case neg =>
    rw [if_neg hr] at h
    injection h with h
    subst h
    refine ⟨le_refl _, by simp [anyAfter, isStopTrue], ?_⟩
    intro hany
    simp [isStopTrue] at hany
  case pos =>
    rw [if_pos hr] at h
    cases hsr : searchLoop env mp mP fuel
        ⟨st.stops, st.fetches, st.resps + 1, st.polls, st.https, st.resume⟩
        [] 0 with
    | none => rw [hsr] at h; cases h
    | some sr =>
      rw [hsr] at h
      injection h with h
      subst h
      obtain ⟨l1, a1, s1⟩ := searchLoop_stop_inv env mp mP hm fuel _ _ _ sr hsr
      have l2 : st.stops ≤ sr.st.stops := l1
      obtain ⟨-, d2, -, d4⟩ := downloadLoop_spec env
        (dlPath ++ "/" ++ replaceSpaceUnderscore fieldName ++ "/" ++
          replaceSpaceUnderscore kw) sr.urls sr.st fs
      obtain ⟨c1, c2, -⟩ := all_cand_no_marks _ d4
      refine ⟨?_, ?_, ?_⟩
      · show st.stops ≤ (downloadLoop env _ sr.urls sr.st fs).st.stops
        omega
      · show anyAfter isStopTrue isPageFetch
          ((Ev.respCheck true :: sr.tr) ++
            (downloadLoop env _ sr.urls sr.st fs).tr) = false
        rw [List.cons_append]
        simp only [anyAfter, isStopTrue, Bool.false_and, Bool.false_or]
        rw [anyAfter_append, a1, anyAfter_of_no_q _ _ _ c2]
        simp [c2]
      · intro hany
        show env.stopAt (downloadLoop env _ sr.urls sr.st fs).st.stops = true
        rw [d2]
        apply s1
        revert hany
        show ((Ev.respCheck true :: sr.tr) ++
            (downloadLoop env _ sr.urls sr.st fs).tr).any isStopTrue = true →
          sr.tr.any isStopTrue = true
        rw [List.cons_append]
        simp [isStopTrue, c1]

theorem kw_resp_inv (env : Env) (mp mP fuel : Nat) (hm : MonoResp env)
    (dlPath fieldName kw : String) (st : St) (fs : FS) (kr : KwRes)
    (h : downloadPdfsForKeyword env mp mP fuel dlPath fieldName kw st fs =
      some kr) :
    st.resps ≤ kr.st.resps ∧
    anyAfter isClosure isPageFetch kr.tr = false ∧
    (kr.tr.any isClosure = true → env.respAt kr.st.resps = false) := by
  simp only [downloadPdfsForKeyword, searchPdfUrls] at h
  by_cases hr : env.respAt st.resps = true
  case neg =>
    rw [if_neg hr] at h
    injection h with h
    subst h
    refine ⟨Nat.le_succ _, by simp [anyAfter, isClosure, isPageFetch], ?_⟩
    intro _
    show env.respAt (st.resps + 1) = false
    cases hx : env.respAt (st.resps + 1) with
    | false => rfl
    | true => exact absurd (hm st.resps (st.resps + 1) (Nat.le_succ _) hx) hr
  case pos =>
    rw [if_pos hr] at h
    cases hsr : searchLoop env mp mP fuel
        ⟨st.stops, st.fetches, st.resps + 1, st.polls, st.https, st.resume⟩
        [] 0 with
    | none => rw [hsr] at h; cases h
    | some sr =>
      rw [hsr] at h
      injection h with h
      subst h
      obtain ⟨l1, a1, s1⟩ := searchLoop_resp_inv env mp mP hm fuel _ _ _ sr hsr
      have l2 : st.resps + 1 ≤ sr.st.resps := l1
      obtain ⟨-, -, d3, d4⟩ := downloadLoop_spec env
        (dlPath ++ "/" ++ replaceSpaceUnderscore fieldName ++ "/" ++
          replaceSpaceUnderscore kw) sr.urls sr.st fs
      obtain ⟨-, c2, c3⟩ := all_cand_no_marks _ d4
      refine ⟨?_, ?_, ?_⟩
      · show st.resps ≤ (downloadLoop env _ sr.urls sr.st fs).st.resps
        omega
      · show anyAfter isClosure isPageFetch
          ((Ev.respCheck true :: sr.tr) ++
            (downloadLoop env _ sr.urls sr.st fs).tr) = false
        rw [List.cons_append]
        simp only [anyAfter, isClosure, Bool.false_and, Bool.false_or]
        rw [anyAfter_append, a1, anyAfter_of_no_q _ _ _ c2]
        simp [c2]
      · intro hany
        show env.respAt (downloadLoop env _ sr.urls sr.st fs).st.resps = false
        rw [d3]
        apply s1
        revert hany
        show ((Ev.respCheck true :: sr.tr) ++
            (downloadLoop env _ sr.urls sr.st fs).tr).any isClosure = true →
          sr.tr.any isClosure = true
        rw [List.cons_append]
        simp [isClosure, c3]

/-! Field-level invariants. -/

theorem field_halts_when_stopped (env : Env) (mp mP fuel : Nat)
    (dlPath fieldName : String) (kws : List String) (st : St) (fs : FS)
    (fr : FieldRes)
    (hstop : env.stopAt st.stops = true)
    (h : downloadPdfsForField env mp mP fuel dlPath fieldName kws st fs =
      some fr) :
    fr.tr.any isPageFetch = false := by
  cases kws with
  | nil =>
    simp only [downloadPdfsForField] at h
    injection h with h
    subst h
    rfl
  | cons kw rest =>
    simp only [downloadPdfsForField] at h
    rw [if_pos hstop] at h
    injection h with h
    subst h
    simp [isPageFetch]

theorem field_stop_inv (env : Env) (mp mP fuel : Nat) (hm : MonoStop env)
    (dlPath fieldName : String) :
    ∀ (kws : List String) (st : St) (fs : FS) (fr : FieldRes),
      downloadPdfsForField env mp mP fuel dlPath fieldName kws st fs =
        some fr →
      st.stops ≤ fr.st.stops ∧
      anyAfter isStopTrue isPageFetch fr.tr = false ∧
      (fr.tr.any isStopTrue = true → env.stopAt fr.st.stops = true) := by
  intro kws
  induction kws with
  | nil =>
    intro st fs fr h
    simp only [downloadPdfsForField] at h
    injection h with h
    subst h
    exact ⟨le_refl _, rfl, by simp⟩
  | cons kw rest ih =>
    intro st fs fr h
    simp only [downloadPdfsForField] at h
    by_cases hb : env.stopAt st.stops = true
    case pos =>
      rw [if_pos hb] at h
      injection h with h
      subst h
      refine ⟨Nat.le_succ _, by simp [anyAfter], ?_⟩
      intro _
      exact hm st.stops (st.stops + 1) (Nat.le_succ _) hb
    case neg =>
      rw [if_neg hb] at h
      cases hkr : downloadPdfsForKeyword env mp mP fuel dlPath fieldName kw
          ⟨st.stops + 1, st.fetches, st.resps, st.polls, st.https, st.resume⟩
          fs with
      | none => rw [hkr] at h; cases h
      | some kr =>
        rw [hkr] at h
        dsimp only [] at h
        cases hfr : downloadPdfsForField env mp mP fuel dlPath fieldName rest
            kr.st kr.fs with
        | none => rw [hfr] at h; cases h
        | some fr2 =>
          rw [hfr] at h
          injection h with h
          subst h
          obtain ⟨k1, k2, k3⟩ := kw_stop_inv env mp mP fuel hm dlPath
            fieldName kw _ fs kr hkr
          have k1' : st.stops + 1 ≤ kr.st.stops := k1
          obtain ⟨f1, f2, f3⟩ := ih kr.st kr.fs fr2 hfr
          refine ⟨by show st.stops ≤ fr2.st.stops; omega, ?_, ?_⟩
          · show anyAfter isStopTrue isPageFetch
              ((Ev.stopCheck false :: kr.tr) ++ fr2.tr) = false
            rw [List.cons_append]
            simp only [anyAfter, isStopTrue, Bool.false_and, Bool.false_or]
            rw [anyAfter_append, k2, f2]
            by_cases hks : kr.tr.any isStopTrue = true
            · have hhalt := field_halts_when_stopped env mp mP fuel dlPath
                fieldName rest kr.st kr.fs fr2 (k3 hks) hfr
              simp [hks, hhalt]
            · rw [Bool.not_eq_true] at hks
              simp [hks]
          · intro hany
            show env.stopAt fr2.st.stops = true
            revert hany
            show ((Ev.stopCheck false :: kr.tr) ++ fr2.tr).any isStopTrue =
                true → env.stopAt fr2.st.stops = true
            rw [List.cons_append]
            simp only [List.any_cons, List.any_append, isStopTrue,
              Bool.false_or, Bool.or_eq_true]
            rintro (hks | hfs)
            · exact hm kr.st.stops fr2.st.stops f1 (k3 hks)
            · exact f3 hfs

theorem field_dead_no_fetch (env : Env) (mp mP fuel : Nat) (hm : MonoResp env)
    (dlPath fieldName : String) :
    ∀ (kws : List String) (st : St) (fs : FS) (fr : FieldRes),
      env.respAt st.resps = false →
      downloadPdfsForField env mp mP fuel dlPath fieldName kws st fs =
        some fr →
      fr.tr.any isPageFetch = false := by
  intro kws
  induction kws with
  | nil =>
    intro st fs fr hdead h
    simp only [downloadPdfsForField] at h
    injection h with h
    subst h
    rfl
  | cons kw rest ih =>
    intro st fs fr hdead h
    simp only [downloadPdfsForField] at h
    by_cases hb : env.stopAt st.stops = true
    case pos =>
      rw [if_pos hb] at h
      injection h with h
      subst h
      simp [isPageFetch]
    case neg =>
      rw [if_neg hb] at h
      simp only [downloadPdfsForKeyword, searchPdfUrls] at h
      rw [if_neg (by simp [hdead] : ¬(env.respAt st.resps = true))] at h
      dsimp only [] at h
      cases hfr : downloadPdfsForField env mp mP fuel dlPath fieldName rest
          ⟨st.stops + 1, st.fetches, st.resps + 1, st.polls, st.https,
           st.resume⟩ fs with
      | none => rw [hfr] at h; cases h
      | some fr2 =>
        rw [hfr] at h
        injection h with h
        subst h
        have hdead2 : env.respAt (st.resps + 1) = false := by
          cases hx : env.respAt (st.resps + 1) with
          | false => rfl
          | true =>
            rw [hm st.resps (st.resps + 1) (Nat.le_succ _) hx] at hdead
            cases hdead
        have hrest := ih _ fs fr2 hdead2 hfr
        show ((Ev.stopCheck false ::
            [Ev.respCheck false, Ev.browserClosure]) ++ fr2.tr).any
          isPageFetch = false
        simp [isPageFetch, hrest]

theorem field_resp_inv (env : Env) (mp mP fuel : Nat) (hm : MonoResp env)
    (dlPath fieldName : String) :
    ∀ (kws : List String) (st : St) (fs : FS) (fr : FieldRes),
      downloadPdfsForField env mp mP fuel dlPath fieldName kws st fs =
        some fr →
      st.resps ≤ fr.st.resps ∧
      anyAfter isClosure isPageFetch fr.tr = false ∧
      (fr.tr.any isClosure = true → env.respAt fr.st.resps = false) := by
  intro kws
  induction kws with
  | nil =>
    intro st fs fr h
    simp only [downloadPdfsForField] at h
    injection h with h
    subst h
    exact ⟨le_refl _, rfl, by simp⟩
  | cons kw rest ih =>
    intro st fs fr h
    simp only [downloadPdfsForField] at h
    by_cases hb : env.stopAt st.stops = true
    case pos =>
      rw [if_pos hb] at h
      injection h with h
      subst h
      refine ⟨le_refl _, by simp [anyAfter], ?_⟩
      intro hany
      simp [isClosure] at hany
    case neg =>
      rw [if_neg hb] at h
      cases hkr : downloadPdfsForKeyword env mp mP fuel dlPath fieldName kw
          ⟨st.stops + 1, st.fetches, st.resps, st.polls, st.https, st.resume⟩
          fs with
      | none => rw [hkr] at h; cases h
      | some kr =>
        rw [hkr] at h
        dsimp only [] at h
        cases hfr : downloadPdfsForField env mp mP fuel dlPath fieldName rest
            kr.st kr.fs with
        | none => rw [hfr] at h; cases h
        | some fr2 =>
          rw [hfr] at h
          injection h with h
          subst h
          obtain ⟨k1, k2, k3⟩ := kw_resp_inv env mp mP fuel hm dlPath
            fieldName kw _ fs kr hkr
          have k1' : st.resps ≤ kr.st.resps := k1
          obtain ⟨f1, f2, f3⟩ := ih kr.st kr.fs fr2 hfr
          refine ⟨by show st.resps ≤ fr2.st.resps; omega, ?_, ?_⟩
          · show anyAfter isClosure isPageFetch
              ((Ev.stopCheck false :: kr.tr) ++ fr2.tr) = false
            rw [List.cons_append]
            simp only [anyAfter, isClosure, Bool.false_and, Bool.false_or]
            rw [anyAfter_append, k2, f2]
            by_cases hks : kr.tr.any isClosure = true
            · have hhalt := field_dead_no_fetch env mp mP fuel hm dlPath
                fieldName rest kr.st kr.fs fr2 (k3 hks) hfr
              simp [hks, hhalt]
            · rw [Bool.not_eq_true] at hks
              simp [hks]
          · intro hany
            show env.respAt fr2.st.resps = false
            revert hany
            show ((Ev.stopCheck false :: kr.tr) ++ fr2.tr).any isClosure =
                true → env.respAt fr2.st.resps = false
            rw [List.cons_append]
            simp only [List.any_cons, List.any_append, isClosure,
              Bool.false_or, Bool.or_eq_true]
            rintro (hks | hfs)
            · have hkr3 := k3 hks
              cases hx : env.respAt fr2.st.resps with
              | false => rfl
              | true =>
                rw [hm kr.st.resps fr2.st.resps f1 hx] at hkr3
                cases hkr3
            · exact f3 hfs

/-! Run-level invariants. -/

theorem all_halts_when_stopped (env : Env) (mp mP fuel : Nat)
    (dlPath : String) (fields : List (String × List String)) (st : St)
    (fs : FS) (ar : AllRes)
    (hstop : env.stopAt st.stops = true)
    (h : downloadAllPdfs env mp mP fuel dlPath fields st fs = some ar) :
    ar.tr.any isPageFetch = false := by
  cases fields with
  | nil =>
    simp only [downloadAllPdfs] at h
    injection h with h
    subst h
    rfl
  | cons f rest =>
    obtain ⟨fieldName, kws⟩ := f
    simp only [downloadAllPdfs] at h
    rw [if_pos hstop] at h
    injection h with h
    subst h
    simp [isPageFetch]

theorem all_stop_inv (env : Env) (mp mP fuel : Nat) (hm : MonoStop env)
    (dlPath : String) :
    ∀ (fields : List (String × List String)) (st : St) (fs : FS)
      (ar : AllRes),
      downloadAllPdfs env mp mP fuel dlPath fields st fs = some ar →
      st.stops ≤ ar.st.stops ∧
      anyAfter isStopTrue isPageFetch ar.tr = false ∧
      (ar.tr.any isStopTrue = true → env.stopAt ar.st.stops = true) := by
  intro fields
  induction fields with
  | nil =>
    intro st fs ar h
    simp only [downloadAllPdfs] at h
    injection h with h
    subst h
    exact ⟨le_refl _, rfl, by simp⟩
  | cons f rest ih =>
    obtain ⟨fieldName, kws⟩ := f
    intro st fs ar h
    simp only [downloadAllPdfs] at h
    by_cases hb : env.stopAt st.stops = true
    case pos =>
      rw [if_pos hb] at h
      injection h with h
      subst h
      refine ⟨Nat.le_succ _, by simp [anyAfter], ?_⟩
      intro _
      exact hm st.stops (st.stops + 1) (Nat.le_succ _) hb
    case neg =>
      rw [if_neg hb] at h
      by_cases hresp : env.respAt st.resps = true
      case neg =>
        rw [if_neg hresp] at h
        injection h with h
        subst h
        refine ⟨Nat.le_succ _, by simp [anyAfter, isStopTrue], ?_⟩
        intro hany
        simp [isStopTrue] at hany
      case pos =>
        rw [if_pos hresp] at h
        cases hfr : downloadPdfsForField env mp mP fuel dlPath fieldName kws
            ⟨st.stops + 1, st.fetches, st.resps + 1, st.polls, st.https,
             st.resume⟩ fs with
        | none => rw [hfr] at h; cases h
        | some fr =>
          rw [hfr] at h
          dsimp only [] at h
          cases har : downloadAllPdfs env mp mP fuel dlPath rest fr.st
              fr.fs with
          | none => rw [har] at h; cases h
          | some ar2 =>
            rw [har] at h
            injection h with h
            subst h
            obtain ⟨f1, f2, f3⟩ := field_stop_inv env mp mP fuel hm dlPath
              fieldName kws _ fs fr hfr
            have f1' : st.stops + 1 ≤ fr.st.stops := f1
            obtain ⟨a1, a2, a3⟩ := ih fr.st fr.fs ar2 har
            refine ⟨by show st.stops ≤ ar2.st.stops; omega, ?_, ?_⟩
            · show anyAfter isStopTrue isPageFetch
                ((Ev.stopCheck false :: Ev.respCheck true :: fr.tr) ++
                  ar2.tr) = false
              rw [List.cons_append, List.cons_append]
              simp only [anyAfter, isStopTrue, Bool.false_and, Bool.false_or]
              rw [anyAfter_append, f2, a2]
              by_cases hks : fr.tr.any isStopTrue = true
              · have hhalt := all_halts_when_stopped env mp mP fuel dlPath
                  rest fr.st fr.fs ar2 (f3 hks) har
                simp [hks, hhalt]
              · rw [Bool.not_eq_true] at hks
                simp [hks]
            · intro hany
              show env.stopAt ar2.st.stops = true
              revert hany
              show ((Ev.stopCheck false :: Ev.respCheck true :: fr.tr) ++
                  ar2.tr).any isStopTrue = true →
                env.stopAt ar2.st.stops = true
              rw [List.cons_append, List.cons_append]
              simp only [List.any_cons, List.any_append, isStopTrue,
                Bool.false_or, Bool.or_eq_true]
              rintro (hks | hfs)
              · exact hm fr.st.stops ar2.st.stops a1 (f3 hks)
              · exact a3 hfs

theorem all_dead_no_fetch (env : Env) (mp mP fuel : Nat)
    (dlPath : String) (fields : List (String × List String)) (st : St)
    (fs : FS) (ar : AllRes)
    (hdead : env.respAt st.resps = false)
    (h : downloadAllPdfs env mp mP fuel dlPath fields st fs = some ar) :
    ar.tr.any isPageFetch = false := by
  cases fields with
  | nil =>
    simp only [downloadAllPdfs] at h
    injection h with h
    subst h
    rfl
  | cons f rest =>
    obtain ⟨fieldName, kws⟩ := f
    simp only [downloadAllPdfs] at h
    by_cases hb : env.stopAt st.stops = true
    case pos =>
      rw [if_pos hb] at h
      injection h with h
      subst h
      simp [isPageFetch]
    case neg =>
      rw [if_neg hb] at h
      rw [if_neg (by simp [hdead] : ¬(env.respAt st.resps = true))] at h
      injection h with h
      subst h
      simp [isPageFetch]

theorem all_resp_inv (env : Env) (mp mP fuel : Nat) (hm : MonoResp env)
    (dlPath : String) :
    ∀ (fields : List (String × List String)) (st : St) (fs : FS)
      (ar : AllRes),
      downloadAllPdfs env mp mP fuel dlPath fields st fs = some ar →
      st.resps ≤ ar.st.resps ∧
      anyAfter isClosure isPageFetch ar.tr = false ∧
      (ar.tr.any isClosure = true → env.respAt ar.st.resps = false) := by
  intro fields
  induction fields with
  | nil =>
    intro st fs ar h
    simp only [downloadAllPdfs] at h
    injection h with h
    subst h
    exact ⟨le_refl _, rfl, by simp⟩
  | cons f rest ih =>
    obtain ⟨fieldName, kws⟩ := f
    intro st fs ar h
    simp only [downloadAllPdfs] at h
    by_cases hb : env.stopAt st.stops = true
    case pos =>
      rw [if_pos hb] at h
      injection h with h
      subst h
      refine ⟨le_refl _, by simp [anyAfter], ?_⟩
      intro hany
      simp [isClosure] at hany
    case neg =>
      rw [if_neg hb] at h
      by_cases hresp : env.respAt st.resps = true
      case neg =>
        rw [if_neg hresp] at h
        injection h with h
        subst h
        refine ⟨Nat.le_succ _,
          by simp [anyAfter, isClosure, isPageFetch], ?_⟩
        intro _
        show env.respAt (st.resps + 1) = false
        cases hx : env.respAt (st.resps + 1) with
        | false => rfl
        | true =>
          exact absurd (hm st.resps (st.resps + 1) (Nat.le_succ _) hx) hresp
      case pos =>
        rw [if_pos hresp] at h
        cases hfr : downloadPdfsForField env mp mP fuel dlPath fieldName kws
            ⟨st.stops + 1, st.fetches, st.resps + 1, st.polls, st.https,
             st.resume⟩ fs with
        | none => rw [hfr] at h; cases h
        | some fr =>
          rw [hfr] at h
          dsimp only [] at h
          cases har : downloadAllPdfs env mp mP fuel dlPath rest fr.st
              fr.fs with
          | none => rw [har] at h; cases h
          | some ar2 =>
            rw [har] at h
            injection h with h
            subst h
            obtain ⟨f1, f2, f3⟩ := field_resp_inv env mp mP fuel hm dlPath
              fieldName kws _ fs fr hfr
            have f1' : st.resps + 1 ≤ fr.st.resps := f1
            obtain ⟨a1, a2, a3⟩ := ih fr.st fr.fs ar2 har
            refine ⟨by show st.resps ≤ ar2.st.resps; omega, ?_, ?_⟩
            · show anyAfter isClosure isPageFetch
                ((Ev.stopCheck false :: Ev.respCheck true :: fr.tr) ++
                  ar2.tr) = false
              rw [List.cons_append, List.cons_append]
              simp only [anyAfter, isClosure, Bool.false_and, Bool.false_or]
              rw [anyAfter_append, f2, a2]
              by_cases hks : fr.tr.any isClosure = true
              · have hhalt := all_dead_no_fetch env mp mP fuel dlPath
                  rest fr.st fr.fs ar2 (f3 hks) har
                simp [hks, hhalt]
              · rw [Bool.not_eq_true] at hks
                simp [hks]
            · intro hany
              show env.respAt ar2.st.resps = false
              revert hany
              show ((Ev.stopCheck false :: Ev.respCheck true :: fr.tr) ++
                  ar2.tr).any isClosure = true →
                env.respAt ar2.st.resps = false
              rw [List.cons_append, List.cons_append]
              simp only [List.any_cons, List.any_append, isClosure,
                Bool.false_or, Bool.or_eq_true]
              rintro (hks | hfs)
              · have hkr3 := f3 hks
                cases hx : env.respAt ar2.st.resps with
                | false => rfl
                | true =>
                  rw [hm fr.st.resps ar2.st.resps a1 hx] at hkr3
                  cases hkr3
              · exact a3 hfs

/-! Monotonicity of the concrete flag scripts. -/

theorem monoStop_envStopMidRun : MonoStop envStopMidRun := by
  intro i j hij hi
  simp only [envStopMidRun, decide_eq_true_eq] at hi ⊢
  omega

theorem monoResp_envBrowserDies : MonoResp envBrowserDies := by
  intro i j hij hj
  simp only [envBrowserDies, decide_eq_true_eq] at hj ⊢
  omega

theorem monoStop_envBrowserDies : MonoStop envBrowserDies := by
  intro i j hij hi
  exact hi

theorem monoResp_envStopMidRun : MonoResp envStopMidRun := by
  intro i j hij hj
  rfl

/-! Claim C1. -/

/-- C1 (counterexample): the claim states that `_search_pdf_urls`
    returns at most `maxCandidates` entries and issues at most
    `maxPages` page fetches even across challenge iterations.  Both
    parts fail on the code: with `maxPdfs = 1` and `maxPages = 1`, a
    first page that carries a challenge (cleared on the next poll)
    followed by a re-fetch whose page holds two matching hrefs yields
    a returned set of size 2 and two page fetches, because the caps
    are only tested at the loop head (a whole page of hrefs is added
    at once) and a challenge `continue` re-fetches without
    incrementing `page_num`. -/
theorem searchPdfUrls_caps_counterexample :
    ¬ ∀ (env : Env) (maxPdfs maxPages fuel : Nat) (st : St)
        (sr : SearchRes),
        searchPdfUrls env maxPdfs maxPages fuel st = some sr →
        sr.urls.length ≤ maxPdfs ∧
          sr.tr.countP isPageFetch ≤ maxPages := by
  intro hclaim
  have h := hclaim envOverCap 1 1 5 initSt _ rfl
  revert h
  decide

/-- C1 (amended): the pagination loop tests both caps only at the loop
    head.  Hence, for any bound H on the number of matching hrefs per
    rendered page, the returned set has at most `maxPdfs - 1 + H`
    entries, and the number of page fetches is at most `maxPages` plus
    the number of challenge detections (each detected challenge
    re-fetches the same offset without incrementing the page
    counter). -/
theorem searchPdfUrls_bounded_by_pages_and_challenges
    (env : Env) (maxPdfs maxPages fuel H : Nat) (st : St) (sr : SearchRes)
    (hH : ∀ n, countPdf (env.pageAt n).hrefs ≤ H)
    (h : searchPdfUrls env maxPdfs maxPages fuel st = some sr) :
    sr.urls.length ≤ maxPdfs - 1 + H ∧
    sr.tr.countP isPageFetch ≤ maxPages + sr.tr.countP isChallenge := by
  constructor
  · exact searchLoop_len_le env maxPdfs maxPages H hH fuel st [] 0 sr
      (by simp) h
  · have := searchLoop_fetch_le env maxPdfs maxPages fuel st [] 0 sr
      (Nat.zero_le _) h
    omega

/-- C1 (witness): a completed concrete run within the amended bounds. -/
theorem searchPdfUrls_bounded_witness :
    (∀ n, countPdf (envOk.pageAt n).hrefs ≤ 2) ∧
    ∃ sr, searchPdfUrls envOk 5 3 9 initSt = some sr ∧
      sr.urls.length ≤ 5 - 1 + 2 ∧
      sr.tr.countP isPageFetch ≤ 3 + sr.tr.countP isChallenge :=
  ⟨fun n => by show countPdf pageTwoPdfs.hrefs ≤ 2; decide,
   _, rfl,
   searchPdfUrls_bounded_by_pages_and_challenges envOk 5 3 9 2 initSt _
     (fun n => by show countPdf pageTwoPdfs.hrefs ≤ 2; decide) rfl⟩

/-! Claim C2. -/

/-- C2 (counterexample): the claim states that once `should_stop` has
    been observed, no further network fetch of any kind (search-page
    fetch or candidate download) is issued before the run terminates.
    This fails on the code: when the flag is observed inside the
    pagination loop, `_search_pdf_urls` returns the partial candidate
    set, and `download_pdfs_for_keyword` then downloads each collected
    URL via `requests.get` without any further stop check.  In the
    concrete run, `should_stop` reads true from its fourth read on,
    yet two candidate fetches follow the true read in the trace. -/
theorem run_fetches_after_stop_counterexample :
    ¬ ∀ (env : Env) (maxPdfs maxPages fuel : Nat) (dlPath : String)
        (fields : List (String × List String)) (st : St) (fs : FS)
        (ar : AllRes),
        MonoStop env →
        downloadAllPdfs env maxPdfs maxPages fuel dlPath fields st fs =
          some ar →
        anyAfter isStopTrue isNetFetch ar.tr = false := by
  intro hclaim
  have h := hclaim envStopMidRun 10 3 9 "d" [("f", ["k"])] initSt [] _
    monoStop_envStopMidRun rfl
  revert h
  decide

/-- C2 (amended): once `should_stop` has been observed by the worker
    (the flag, once set, stays set), no further *search-page* fetch is
    issued before the run terminates; candidate-URL downloads of the
    current keyword's already-collected URLs may still be issued. -/
theorem no_page_fetch_after_stop_observed
    (env : Env) (maxPdfs maxPages fuel : Nat) (dlPath : String)
    (fields : List (String × List String)) (st : St) (fs : FS)
    (ar : AllRes)
    (hm : MonoStop env)
    (h : downloadAllPdfs env maxPdfs maxPages fuel dlPath fields st fs =
      some ar) :
    anyAfter isStopTrue isPageFetch ar.tr = false :=
  (all_stop_inv env maxPdfs maxPages fuel hm dlPath fields st fs ar h).2.1

/-- C2 (witness): the amended statement at a concrete run in which the
    stop flag actually flips mid-search. -/
theorem no_page_fetch_after_stop_observed_witness :
    MonoStop envStopMidRun ∧
    ∃ ar, downloadAllPdfs envStopMidRun 10 3 9 "d" [("f", ["k"])] initSt []
        = some ar ∧
      anyAfter isStopTrue isPageFetch ar.tr = false :=
  ⟨monoStop_envStopMidRun, _, rfl,
   no_page_fetch_after_stop_observed envStopMidRun 10 3 9 "d"
     [("f", ["k"])] initSt [] _ monoStop_envStopMidRun rfl⟩

/-! Claim C4. -/

/-- C4 (counterexample): the claim states that when the browser becomes
    unresponsive the entire run stops immediately, with no further
    download attempted.  This fails on the code: when
    `_is_browser_responsive` turns false inside the pagination loop,
    `_handle_browser_closure` surfaces the error and `_search_pdf_urls`
    returns the already-collected URLs — which
    `download_pdfs_for_keyword` then downloads, and the keyword loop
    keeps iterating (each later keyword producing an error result).
    In the concrete run the browser dies at its third responsiveness
    check, and two candidate fetches follow the surfaced closure in
    the trace. -/
theorem run_downloads_after_closure_counterexample :
    ¬ ∀ (env : Env) (maxPdfs maxPages fuel : Nat) (dlPath : String)
        (fields : List (String × List String)) (st : St) (fs : FS)
        (ar : AllRes),
        MonoResp env →
        downloadAllPdfs env maxPdfs maxPages fuel dlPath fields st fs =
          some ar →
        anyAfter isClosure isNetFetch ar.tr = false := by
  intro hclaim
  have h := hclaim envBrowserDies 10 3 9 "d" [("f", ["k", "k2"])] initSt []
    _ monoResp_envBrowserDies rfl
  revert h
  decide

/-- C4 (amended): after a browser-unresponsiveness closure has been
    surfaced (a dead browser stays dead), no further *search-page*
    fetch is issued; the current keyword's already-collected URLs are
    still downloaded, later keywords yield error results without
    network activity, and no later field is processed. -/
theorem no_page_fetch_after_closure
    (env : Env) (maxPdfs maxPages fuel : Nat) (dlPath : String)
    (fields : List (String × List String)) (st : St) (fs : FS)
    (ar : AllRes)
    (hm : MonoResp env)
    (h : downloadAllPdfs env maxPdfs maxPages fuel dlPath fields st fs =
      some ar) :
    anyAfter isClosure isPageFetch ar.tr = false :=
  (all_resp_inv env maxPdfs maxPages fuel hm dlPath fields st fs ar h).2.1

/-- C4 (witness): the amended statement at a concrete run in which the
    browser actually dies mid-search. -/
theorem no_page_fetch_after_closure_witness :
    MonoResp envBrowserDies ∧
    ∃ ar, downloadAllPdfs envBrowserDies 10 3 9 "d" [("f", ["k", "k2"])]
        initSt [] = some ar ∧
      anyAfter isClosure isPageFetch ar.tr = false :=
  ⟨monoResp_envBrowserDies, _, rfl,
   no_page_fetch_after_closure envBrowserDies 10 3 9 "d"
     [("f", ["k", "k2"])] initSt [] _ monoResp_envBrowserDies rfl⟩

/-! Claim C3. -/

/-- C3 (counterexample): the claim states that a pre-existing
    destination is reported as a `Skipped` outcome distinct from
    `Failed`.  The code has no such outcome: `_save_pdf` returns the
    same `False` for "already exists" (HTTP 200, file present) as for
    a failed download (HTTP 404) — concretely, the two calls below
    return identical results — and `download_pdfs_for_keyword`
    therefore counts every pre-existing file in `failed_count` (a
    pre-populated directory yields `downloaded_count = 0`,
    `failed_count = 2`). -/
theorem skip_indistinct_from_failure_counterexample :
    savePdf envOk "http://x/a.pdf" "d" initSt fsPre =
      savePdf envHttp404 "http://x/a.pdf" "d" initSt fsPre ∧
    ∃ kr, downloadPdfsForKeyword envOk 5 1 9 "dl" "f" "k" initSt
        [("dl/f/k/x.pdf", "old"), ("dl/f/k/y.pdf", "old")] = some kr ∧
      kr.result = KwResult.ok "k" "f" 2 0 2 "dl/f/k" :=
  ⟨by decide, _, rfl, by decide⟩

/-- C3 (amended): a candidate URL whose derived destination file
    already exists never overwrites the existing file and is never
    counted in `downloaded_count`; but it is reported by the same
    `False` as a failed download and counted in `failed_count`.
    Re-running the download loop over an already-populated directory
    yields `downloaded_count = 0`, `failed_count` equal to the number
    of URLs, and an unchanged directory. -/
theorem save_pdf_never_overwrites
    (env : Env) (folder : String) (fs : FS) :
    ∀ (urls : List String) (st : St),
      (∀ u ∈ urls, (fs.lookup (derivedPath folder u)).isSome = true) →
      (downloadLoop env folder urls st fs).dcount = 0 ∧
      (downloadLoop env folder urls st fs).fcount = urls.length ∧
      (downloadLoop env folder urls st fs).fs = fs := by
  intro urls
  induction urls with
  | nil => intro st _; exact ⟨rfl, rfl, rfl⟩
  | cons u rest ih =>
    intro st hall
    obtain ⟨hok, hfs⟩ := savePdf_exists env u folder st fs
      (hall u (by simp))
    obtain ⟨i1, i2, i3⟩ := ih (savePdf env u folder st fs).st
      (fun v hv => hall v (by simp [hv]))
    simp only [downloadLoop, hok, hfs, Bool.false_eq_true, if_false]
    exact ⟨i1, by rw [i2, List.length_cons], i3⟩

/-- C3 (witness): the amended statement at a concrete pre-populated
    directory. -/
theorem save_pdf_never_overwrites_witness :
    (∀ u ∈ ["http://x/a.pdf"],
      (fsPre.lookup (derivedPath "d" u)).isSome = true) ∧
    (downloadLoop envOk "d" ["http://x/a.pdf"] initSt fsPre).dcount = 0 ∧
    (downloadLoop envOk "d" ["http://x/a.pdf"] initSt fsPre).fcount = 1 ∧
    (downloadLoop envOk "d" ["http://x/a.pdf"] initSt fsPre).fs = fsPre :=
  ⟨by decide,
   (save_pdf_never_overwrites envOk "d" fsPre ["http://x/a.pdf"] initSt
     (by decide)).1,
   (save_pdf_never_overwrites envOk "d" fsPre ["http://x/a.pdf"] initSt
     (by decide)).2.1,
   (save_pdf_never_overwrites envOk "d" fsPre ["http://x/a.pdf"] initSt
     (by decide)).2.2⟩

/-! Claim C5. -/

/-- C5 (code bug): the spec requires the unbounded challenge-resolution
    wait to observe `should_stop` on every poll iteration.  The poll
    loop of `_handle_captcha_detection` only checks `should_resume`
    and re-probes the challenge; it never reads `should_stop`.  With
    `should_stop` permanently set, the challenge persisting and no
    resume signal, the wait never terminates, for every amount of
    fuel — the stop flag is simply not an input of the loop. -/
theorem captcha_wait_never_observes_stop :
    ∀ fuel : Nat,
      handleCaptchaDetection envStuckChallenge fuel initSt = none := by
  have gen : ∀ (fuel : Nat) (st : St), st.resume = false →
      handleCaptchaDetection envStuckChallenge fuel st = none := by
    intro fuel
    induction fuel with
    | zero => intro st _; rfl
    | succ fuel ih =>
      intro st hres
      simp only [handleCaptchaDetection, envStuckChallenge, hres,
        Bool.false_or]
      exact ih _ rfl
  intro fuel
  exact gen fuel initSt rfl

/-! Claim C6. -/

/-- C6: each invocation error — `start` while a run is active, `resume`
    with no pending CAPTCHA, `stop` with neither a run nor a pending
    CAPTCHA — is rejected synchronously with a descriptive 400 error,
    and the rejection returns the shared state unchanged. -/
theorem control_errors_reject_without_mutation
    (cfg : List (String × List String)) (sel custom : List String)
    (s : AppState) :
    (s.status.isRunning = true →
      startDownload cfg sel custom s =
        (ApiResp.err "Download already in progress" 400, s, false)) ∧
    (s.status.captchaDetected = false →
      resumeDownload s =
        (ApiResp.err "No CAPTCHA detected to resume from" 400, s)) ∧
    (s.status.isRunning = false → s.status.captchaDetected = false →
      stopDownloadApi s =
        (ApiResp.err "No download in progress to stop" 400, s)) := by
  refine ⟨?_, ?_, ?_⟩
  · intro h
    simp [startDownload, h]
  · intro h
    simp [resumeDownload, h]
  · intro h1 h2
    simp [stopDownloadApi, h1, h2]

/-- C6 (witness): the three rejections at concrete states. -/
theorem control_errors_reject_without_mutation_witness :
    startDownload [] [] [] sRunning =
      (ApiResp.err "Download already in progress" 400, sRunning, false) ∧
    resumeDownload sIdle =
      (ApiResp.err "No CAPTCHA detected to resume from" 400, sIdle) ∧
    stopDownloadApi sIdle =
      (ApiResp.err "No download in progress to stop" 400, sIdle) :=
  ⟨(control_errors_reject_without_mutation [] [] [] sRunning).1 rfl,
   (control_errors_reject_without_mutation [] [] [] sIdle).2.1 rfl,
   (control_errors_reject_without_mutation [] [] [] sIdle).2.2 rfl rfl⟩

/-! Claim C7. -/

/-- C7: for every completed URL collection, the returned candidate set
    contains no duplicates (set semantics even across pages) and every
    element is an href ending in ".pdf". -/
theorem search_results_nodup_and_pdf_suffix
    (env : Env) (maxPdfs maxPages fuel : Nat) (st : St) (sr : SearchRes)
    (h : searchPdfUrls env maxPdfs maxPages fuel st = some sr) :
    sr.urls.Nodup ∧ ∀ u ∈ sr.urls, strEndsWith u ".pdf" = true :=
  searchLoop_sound env maxPdfs maxPages fuel st [] 0 sr (by simp)
    (by simp) h

/-- C7 (witness): a concrete completed collection, over pages whose
    anchors repeat the same two `.pdf` hrefs and carry one non-pdf
    href and one absent href. -/
theorem search_results_nodup_and_pdf_suffix_witness :
    ∃ sr, searchPdfUrls envOk 5 3 9 initSt = some sr ∧
      sr.urls.Nodup ∧ ∀ u ∈ sr.urls, strEndsWith u ".pdf" = true :=
  ⟨_, rfl, search_results_nodup_and_pdf_suffix envOk 5 3 9 initSt _ rfl⟩

/-! Claim C8. -/

/-- C8: when a fetched page carries a challenge and the challenge wait
    afterwards clears (by resume or auto-clear), the loop `continue`s:
    the next iteration runs with the same `page_num` (so the next page
    fetch uses the same `&start=` offset, `pageNum * 10`) and with the
    candidate set unchanged — no href of the challenged page is
    collected.  The whole step only prepends the stop-check, fetch,
    responsiveness-check and challenge events to the continuation's
    trace. -/
theorem challenge_continues_at_same_offset
    (env : Env) (maxPdfs maxPages fuel : Nat) (st : St)
    (urls : List String) (pageNum : Nat) (c : Bool) (st4 : St)
    (hcond : urls.length < maxPdfs ∧ pageNum < maxPages)
    (hstop : env.stopAt st.stops = false)
    (hget : (env.pageAt st.fetches).getOk = true)
    (hresp : env.respAt st.resps = true)
    (hch : (env.pageAt st.fetches).challenged = true)
    (hcap : handleCaptchaDetection env fuel
        ⟨st.stops + 1, st.fetches + 1, st.resps + 1, st.polls, st.https,
         st.resume⟩ = some (c, st4)) :
    searchLoop env maxPdfs maxPages (fuel + 1) st urls pageNum =
      (searchLoop env maxPdfs maxPages fuel st4 urls pageNum).map
        fun res =>
          ⟨res.urls, res.st,
           Ev.stopCheck false :: Ev.pageFetch (pageNum * 10) ::
             Ev.respCheck true :: Ev.challenge :: res.tr⟩ := by
  simp only [searchLoop]
  rw [if_pos hcond]
  rw [if_neg (by simp [hstop] : ¬(env.stopAt st.stops = true))]
  rw [if_pos hget]
  rw [if_pos hresp]
  rw [if_pos hch]
  rw [hcap]
  dsimp only []
  rw [hresp]
  simp

/-- C8 (witness): the step equation at a concrete challenged fetch,
    released by a resume signal at the first poll. -/
theorem challenge_continues_at_same_offset_witness :
    (([] : List String).length < 5 ∧ 0 < 3) ∧
    envResumed.stopAt 0 = false ∧
    (envResumed.pageAt 0).challenged = true ∧
    handleCaptchaDetection envResumed 8 ⟨1, 1, 1, 0, 0, false⟩ =
      some (true, ⟨1, 1, 1, 1, 0, false⟩) ∧
    searchLoop envResumed 5 3 (8 + 1) initSt [] 0 =
      (searchLoop envResumed 5 3 8 ⟨1, 1, 1, 1, 0, false⟩ [] 0).map
        (fun res =>
          ⟨res.urls, res.st,
           Ev.stopCheck false :: Ev.pageFetch (0 * 10) ::
             Ev.respCheck true :: Ev.challenge :: res.tr⟩) :=
  ⟨by decide, by decide, by decide, by decide,
   challenge_continues_at_same_offset envResumed 5 3 8 initSt [] 0 true
     ⟨1, 1, 1, 1, 0, false⟩ (by decide) (by decide) (by decide) (by decide)
     (by decide) (by decide)⟩

/-! Claim C9. -/

/-- C9: every successful result dict of `download_pdfs_for_keyword`
    satisfies `total_urls_found = downloaded_count + failed_count` —
    each collected URL is counted in exactly one of the two counters —
    and a URL whose derived destination already exists yields `False`
    from `_save_pdf`, so it is counted in `failed_count`, not in
    `downloaded_count`. -/
theorem keyword_counts_partition
    (env : Env) (maxPdfs maxPages fuel : Nat)
    (dlPath fieldName keyword : String) (st : St) (fs : FS) (kr : KwRes)
    (h : downloadPdfsForKeyword env maxPdfs maxPages fuel dlPath fieldName
        keyword st fs = some kr)
    (kw2 fn2 savePath : String) (total d f : Nat)
    (hok : kr.result = KwResult.ok kw2 fn2 total d f savePath) :
    total = d + f ∧
    ∀ (env2 : Env) (url folder : String) (st2 : St) (fs2 : FS),
      (fs2.lookup (derivedPath folder url)).isSome = true →
      (savePdf env2 url folder st2 fs2).ok = false := by
  constructor
  · simp only [downloadPdfsForKeyword, searchPdfUrls] at h
    by_cases hr : env.respAt st.resps = true
    case neg =>
      rw [if_neg hr] at h
      injection h with h
      subst h
      simp at hok
    case pos =>
      rw [if_pos hr] at h
      cases hsr : searchLoop env maxPdfs maxPages fuel
          ⟨st.stops, st.fetches, st.resps + 1, st.polls, st.https,
           st.resume⟩ [] 0 with
      | none => rw [hsr] at h; cases h
      | some sr =>
        rw [hsr] at h
        injection h with h
        subst h
        obtain ⟨d1, -, -, -⟩ := downloadLoop_spec env
          (dlPath ++ "/" ++ replaceSpaceUnderscore fieldName ++ "/" ++
            replaceSpaceUnderscore keyword) sr.urls sr.st fs
        simp only [KwResult.ok.injEq] at hok
        obtain ⟨-, -, h3, h4, h5, -⟩ := hok
        omega
  · intro env2 url folder st2 fs2 hex
    exact (savePdf_exists env2 url folder st2 fs2 hex).1

/-- C9 (witness): a concrete successful run: two URLs found, both
    downloaded, none failed. -/
theorem keyword_counts_partition_witness :
    (∃ kr, downloadPdfsForKeyword envOk 5 1 9 "dl" "f" "k" initSt [] =
        some kr ∧
      kr.result = KwResult.ok "k" "f" 2 2 0 "dl/f/k") ∧
    (2 : Nat) = 2 + 0 :=
  ⟨⟨_, rfl, by decide⟩,
   (keyword_counts_partition envOk 5 1 9 "dl" "f" "k" initSt [] _ rfl
     "k" "f" "dl/f/k" 2 2 0 (by decide)).1⟩

/-! Claim C10. -/

/-- C10: whenever the challenge wait returns — in particular when it
    was unblocked because `should_resume` was observed — the
    `should_resume` flag is false in the resulting state: the
    resume-observation branch resets it before returning, and the
    auto-clear branch is only reachable when it already read false.
    A single resume signal therefore unblocks at most one wait. -/
theorem resume_flag_reset_on_unblock (env : Env) :
    ∀ (fuel : Nat) (st : St) (c : Bool) (st1 : St),
      handleCaptchaDetection env fuel st = some (c, st1) →
      st1.resume = false := by
  intro fuel
  induction fuel with
  | zero => intro st c st1 h; simp [handleCaptchaDetection] at h
  | succ fuel ih =>
    intro st c st1 h
    simp only [handleCaptchaDetection] at h
    by_cases hv : (st.resume || env.resumeSig st.polls) = true
    · rw [if_pos hv] at h
      simp only [Option.some.injEq, Prod.mk.injEq] at h
      obtain ⟨-, hst⟩ := h
      subst hst
      rfl
    · rw [if_neg hv] at h
      by_cases hr : env.robotAt st.polls = true
      · rw [if_pos hr] at h
        exact ih _ _ _ h
      · rw [if_neg hr] at h
        simp only [Option.some.injEq, Prod.mk.injEq] at h
        obtain ⟨-, hst⟩ := h
        subst hst
        simp only [Bool.or_eq_true, not_or, Bool.not_eq_true] at hv
        exact hv.1

/-- C10 (witness): a concrete wait unblocked by a resume signal at its
    first poll; the returned state carries `should_resume = false`. -/
theorem resume_flag_reset_on_unblock_witness :
    handleCaptchaDetection envResumed 5 initSt =
      some (true, ⟨0, 0, 0, 1, 0, false⟩) ∧
    (⟨0, 0, 0, 1, 0, false⟩ : St).resume = false :=
  ⟨by decide,
   resume_flag_reset_on_unblock envResumed 5 initSt true _ (by decide)⟩
